import Mathlib

/-!
Shallow embedding of the task-timer core of `src/src/App.jsx`
(browser task/timer list: per-second tick, autoplay hand-off,
Pomodoro expansion, localStorage load/save, list mutations).

JavaScript numbers that the program uses as integers (ids, minutes,
seconds) are modelled as `Int`.  `Date.now()` is passed in explicitly as
a `base : Int` parameter; within one synchronous call all `Date.now()`
reads are modelled as returning the same value.  Optional JS object
fields are modelled as `Option` (absent = `none`); boolean tag fields
that JS leaves `undefined` (falsy) are modelled as `Bool` with absent =
`false`, except `mode`, whose very absence matters to claim C10, which
is `Option String`.
-/

namespace TimeManager

/-- A task record, after the shape built by `addTask`, the localStorage
load effect, and `handleAddPomodoro` in `src/src/App.jsx`. -/
structure Task where
  id : Int
  name : String
  minutes : Int
  timeLeft : Int
  running : Bool
  completed : Bool
  mode : Option String
  originalName : Option String
  isPomodoroWork : Bool
  partNumber : Option Int
  totalParts : Option Int
  isPomodoroBreak : Bool
  breakNumber : Option Int
  isPomodoroTaskBreak : Bool
deriving Repr, DecidableEq

/-- A task with every optional field absent; used as a base for concrete
literals in theorems. -/
def baseTask : Task :=
  { id := 0, name := "", minutes := 0, timeLeft := 0, running := false,
    completed := false, mode := none, originalName := none,
    isPomodoroWork := false, partNumber := none, totalParts := none,
    isPomodoroBreak := false, breakNumber := none,
    isPomodoroTaskBreak := false }

instance : Inhabited Task := ⟨baseTask⟩

/-- The per-task body of the tick interval's `map` (App.jsx lines
281-292): a running task with time left is decremented and `completed`
is overwritten with `newTimeLeft === 0`; every other task is returned
unchanged. -/
def decTask (t : Task) : Task :=
  if t.running && decide (0 < t.timeLeft) then
    { t with timeLeft := t.timeLeft - 1,
             completed := decide (t.timeLeft - 1 = 0) }
  else t

/-- The predicate of the hand-off's `findIndex` (App.jsx line 296):
the task that just completed, i.e. was running with `timeLeft === 1`
before the decrement. -/
def justCompleted (t : Task) : Bool :=
  t.running && decide (t.timeLeft = 1)

/-- The autoplay hand-off block (App.jsx lines 294-313), acting on the
already-decremented array `updatedTasks` while scanning `prevTasks`.
`List.findIdx` returns the list length when nothing matches, mirroring
JS `findIndex` returning `-1`; the `currentRunningIndex !== -1` test
becomes the bounds check. -/
def applyHandOff (prevTasks updatedTasks : List Task) : List Task :=
  let currentRunningIndex := prevTasks.findIdx justCompleted
  if h : currentRunningIndex < updatedTasks.length then
    let u1 := updatedTasks.set currentRunningIndex
      { updatedTasks.get ⟨currentRunningIndex, h⟩ with running := false }
    let nextTaskIndex := currentRunningIndex + 1
    if h2 : nextTaskIndex < u1.length then
      if 0 < (u1.get ⟨nextTaskIndex, h2⟩).timeLeft then
        u1.set nextTaskIndex
          { u1.get ⟨nextTaskIndex, h2⟩ with running := true }
      else u1
    else u1
  else updatedTasks

/-- One firing of the tick interval (App.jsx lines 271-320), acting on
the previous tasks snapshot.  `shouldStartNextTask` is set inside the
map exactly when a task with `running && timeLeft > 0` reaches
`newTimeLeft === 0` while autoplay is on. -/
def tickTasks (autoPlay : Bool) (prevTasks : List Task) : List Task :=
  if !(prevTasks.any fun t => t.running && decide (0 < t.timeLeft)) then
    prevTasks
  else
    let shouldStartNextTask := prevTasks.any fun t =>
      t.running && decide (0 < t.timeLeft) && decide (t.timeLeft - 1 = 0)
        && autoPlay
    let updatedTasks := prevTasks.map decTask
    if shouldStartNextTask && autoPlay then
      applyHandOff prevTasks updatedTasks
    else updatedTasks

/-- The result of JS `Number(minutesInput)` on the minutes form field:
`nan` for non-numeric text, `num v` for a numeric value (the absent /
empty field gives `Number("") = 0`, i.e. `num 0`). -/
inductive JsNum where
  | nan : JsNum
  | num : Int → JsNum
deriving Repr, DecidableEq

/-- JS `String.prototype.trim`: strips whitespace from both ends.
Written by structural recursion on the character list (Lean's own
`String.trim` is defined by well-founded recursion on byte positions
and does not evaluate inside the kernel). -/
def jsTrim (s : String) : String :=
  ⟨(((s.data.dropWhile Char.isWhitespace).reverse.dropWhile
      Char.isWhitespace).reverse)⟩

/-- `addTask` (App.jsx lines 354-388).  `!numMinutes || numMinutes <= 0
|| isNaN(numMinutes)` collapses, for an integer `v`, to `v ≤ 0`, and to
`True` for NaN.  Returns the new task list (empty trimmed name: the
previous list unchanged). -/
def addTask (prevTasks : List Task) (taskInput : String)
    (minutesInput : JsNum) (now : Int) : List Task :=
  let trimmedTask := jsTrim taskInput
  let numMinutes : Int :=
    match minutesInput with
    | .nan => 60
    | .num v => if v ≤ 0 then 60 else v
  if trimmedTask = "" then prevTasks
  else
    prevTasks ++
      [{ id := now, name := trimmedTask, minutes := numMinutes,
         timeLeft := numMinutes * 60, running := false, completed := false,
         mode := some "countdown", originalName := none,
         isPomodoroWork := false, partNumber := none, totalParts := none,
         isPomodoroBreak := false, breakNumber := none,
         isPomodoroTaskBreak := false }]

/-- `resetTask` (App.jsx lines 419-423). -/
def resetTask (prevTasks : List Task) (id : Int) : List Task :=
  prevTasks.map fun t =>
    if t.id = id then { t with timeLeft := t.minutes * 60, running := false }
    else t

/-- The `minutes` field of a raw persisted record, as the load effect
distinguishes it: JS `undefined`, the empty string, or a number. -/
inductive RawNum where
  | undef : RawNum
  | emptyStr : RawNum
  | num : Int → RawNum
deriving Repr, DecidableEq

/-- One raw record of the persisted `tasks` array, with the fields the
load effect inspects; `none` models a JS `undefined` field.  `id` is
copied through unrepaired by the code, so it is kept concrete. -/
structure RawTask where
  id : Int
  name : Option String
  minutes : RawNum
  timeLeft : Option Int
  completed : Option Bool
  mode : Option String
deriving Repr, DecidableEq

/-- Outcome of `JSON.parse(localStorage.getItem('tasks'))`: a throw
(`corrupt`), a non-array value (including the `null` from an absent
entry), or an array of raw records. -/
inductive Stored where
  | corrupt : Stored
  | nonArray : Stored
  | arr : List RawTask → Stored

/-- Result of the load effect: the tasks state it leaves behind
(initially `[]`) and whether the stored entry was removed. -/
structure LoadResult where
  tasks : List Task
  storageRemoved : Bool
deriving Repr, DecidableEq

/-- The per-record repair inside the load effect (App.jsx lines
330-338).  `t.name || "Unnamed Task"` treats the empty string as
missing; `t.minutes || 1` treats `undefined`, `""` and `0` as missing;
`timeLeft` falls back to the raw `minutes` value (not `minutes*60`)
when `minutes` is neither `undefined` nor `""`, else to `60`. -/
def validateRaw (t : RawTask) : Task :=
  { id := t.id,
    name := match t.name with
      | none => "Unnamed Task"
      | some s => if s = "" then "Unnamed Task" else s,
    minutes := match t.minutes with
      | .undef => 1
      | .emptyStr => 1
      | .num v => if v = 0 then 1 else v,
    timeLeft := match t.timeLeft with
      | some tl => tl
      | none => match t.minutes with
        | .num v => v
        | .undef => 60
        | .emptyStr => 60,
    running := false,
    completed := t.completed.getD false,
    mode := some (t.mode.getD "countdown"),
    originalName := none, isPomodoroWork := false, partNumber := none,
    totalParts := none, isPomodoroBreak := false, breakNumber := none,
    isPomodoroTaskBreak := false }

/-- The localStorage load effect (App.jsx lines 323-346): a parse throw
removes the entry and leaves the empty initial list; a non-array or
empty-array value leaves the empty initial list; a non-empty array is
repaired record by record. -/
def load (s : Stored) : LoadResult :=
  match s with
  | .corrupt => { tasks := [], storageRemoved := true }
  | .nonArray => { tasks := [], storageRemoved := false }
  | .arr ts =>
    if ts.length > 0 then
      { tasks := ts.map validateRaw, storageRemoved := false }
    else { tasks := [], storageRemoved := false }

/-- The app state visible to the tick and save effects: the tasks
snapshot, the autoplay flag, and a count of persistence writes
performed by the save effect (App.jsx lines 391-394). -/
structure AppState where
  tasks : List Task
  autoPlay : Bool
  saveCount : Nat
deriving Repr, DecidableEq

/-- One tick of the interval together with its persistence consequence:
when no task is running with time left, the setter returns the previous
snapshot unchanged (App.jsx lines 275-277), React bails out, and the
save effect (App.jsx lines 391-394) does not run; otherwise the new
snapshot replaces the old and is written through. -/
def appTick (s : AppState) : AppState :=
  if s.tasks.any (fun t => t.running && decide (0 < t.timeLeft)) then
    { s with tasks := tickTasks s.autoPlay s.tasks,
             saveCount := s.saveCount + 1 }
  else s

/-- JS `Math.ceil(a / b)` for integers with `b > 0`, via the identity
`ceil (a/b) = -(floor (-a/b))`. -/
def jsCeilDiv (a b : Int) : Int := -((-a).ediv b)

/-- The work-session record pushed by `handleAddPomodoro` (App.jsx
lines 456-468): a spread of the original task with the listed fields
overridden, so unlisted fields (in particular `mode`) carry over. -/
def pomWorkTask (base : Int) (index : Nat) (t : Task)
    (workMinutes : Int) (sessionMinutes : Int) (sessionCount : Nat) : Task :=
  { t with
    id := base + (index : Int) * 1000 + (sessionCount : Int) * 2,
    name := t.name ++ " - Part " ++ toString sessionCount ++ " (🍅 "
      ++ toString sessionMinutes ++ "min)",
    minutes := sessionMinutes,
    timeLeft := sessionMinutes * 60,
    running := false, completed := false,
    originalName := some t.name,
    isPomodoroWork := true,
    partNumber := some (sessionCount : Int),
    totalParts := some (jsCeilDiv t.minutes workMinutes) }

/-- The between-sessions break record pushed by `handleAddPomodoro`
(App.jsx lines 474-483): a fresh object literal, so every field it
does not list is absent — in particular it has no `mode` field. -/
def pomBreakTask (base : Int) (index : Nat) (breakMinutes : Int)
    (sessionCount : Nat) : Task :=
  { id := base + (index : Int) * 1000 + (sessionCount : Int) * 2 + 1,
    name := "☕ Break " ++ toString sessionCount ++ " ("
      ++ toString breakMinutes ++ "min)",
    minutes := breakMinutes,
    timeLeft := breakMinutes * 60,
    running := false, completed := false,
    mode := none, originalName := none, isPomodoroWork := false,
    partNumber := none, totalParts := none,
    isPomodoroBreak := true,
    breakNumber := some (sessionCount : Int),
    isPomodoroTaskBreak := false }

/-- The after-task break record pushed by `handleAddPomodoro` (App.jsx
lines 489-497): likewise a fresh object literal with no `mode` field. -/
def pomTaskBreak (base : Int) (index : Nat) (breakMinutes : Int) : Task :=
  { id := base + (index : Int) * 1000 + 9999,
    name := "☕ Task Break (" ++ toString breakMinutes ++ "min)",
    minutes := breakMinutes,
    timeLeft := breakMinutes * 60,
    running := false, completed := false,
    mode := none, originalName := none, isPomodoroWork := false,
    partNumber := none, totalParts := none,
    isPomodoroBreak := false, breakNumber := none,
    isPomodoroTaskBreak := true }

/-- The `while (remainingMinutes > 0)` loop of `handleAddPomodoro`
(App.jsx lines 451-485), with an explicit fuel.  For `0 < workMinutes`
every iteration consumes at least one minute, so fuel
`remainingMinutes.toNat` (supplied at the call site) is never
exhausted; for `workMinutes ≤ 0` the JS loop does not terminate. -/
def pomSessions (base : Int) (index : Nat) (t : Task)
    (workMinutes breakMinutes : Int) :
    Nat → Int → Nat → List Task
  | 0, _, _ => []
  | fuel + 1, remainingMinutes, sessionCount =>
    if 0 < remainingMinutes then
      let sc := sessionCount + 1
      let workSessionMinutes := min workMinutes remainingMinutes
      let remaining' := remainingMinutes - workSessionMinutes
      pomWorkTask base index t workMinutes workSessionMinutes sc ::
        ((if 0 < remaining' then [pomBreakTask base index breakMinutes sc]
          else []) ++
         pomSessions base index t workMinutes breakMinutes fuel remaining' sc)
    else []

/-- The indexed `forEach` body of `handleAddPomodoro` (App.jsx lines
445-499): each task's session/break sequence, followed by a task break
when the task is not the last one (`index < prevTasks.length - 1`). -/
def pomGo (workMinutes breakMinutes base : Int) (len : Nat) :
    Nat → List Task → List Task
  | _, [] => []
  | index, t :: rest =>
    (pomSessions base index t workMinutes breakMinutes
       t.minutes.toNat t.minutes 0 ++
     (if index < len - 1 then [pomTaskBreak base index breakMinutes]
      else [])) ++
    pomGo workMinutes breakMinutes base len (index + 1) rest

/-- `handleAddPomodoro` (App.jsx lines 441-503): replaces the whole
list with the expansion.  `base` models `Date.now()`, assumed constant
across the synchronous call. -/
def handleAddPomodoro (prevTasks : List Task)
    (workMinutes breakMinutes base : Int) : List Task :=
  pomGo workMinutes breakMinutes base prevTasks.length 0 prevTasks

/-! ### Structural lemmas about the tick -/

theorem list_set_self {α : Type} (l : List α) (j : Nat) (h : j < l.length) :
    l.set j (l.get ⟨j, h⟩) = l := by
  apply List.ext_getElem
  · simp
  · intro i h1 h2
    simp only [List.get_eq_getElem]
    rw [List.getElem_set]
    split
    next hji => subst hji; rfl
    next => rfl

/-- Setting an index to a copy of itself with only `running` changed
leaves the `timeLeft` and `completed` projections of the list intact. -/
theorem map_set_running (l : List Task) (j : Nat) (h : j < l.length) (b : Bool) :
    ((l.set j { l.get ⟨j, h⟩ with running := b }).map Task.timeLeft
        = l.map Task.timeLeft) ∧
    ((l.set j { l.get ⟨j, h⟩ with running := b }).map Task.completed
        = l.map Task.completed) := by
  constructor <;>
  · rw [List.map_set]
    have : j < (l.map fun t => t.timeLeft).length ∨
        j < (l.map fun t => t.completed).length := by simp [h]
    first
    | (conv_lhs => rw [show (({ l.get ⟨j, h⟩ with running := b } : Task).timeLeft)
        = (l.map Task.timeLeft).get ⟨j, by simpa using h⟩ by
          simp [List.get_eq_getElem, List.getElem_map, Task.timeLeft]])
    | (conv_lhs => rw [show (({ l.get ⟨j, h⟩ with running := b } : Task).completed)
        = (l.map Task.completed).get ⟨j, by simpa using h⟩ by
          simp [List.get_eq_getElem, List.getElem_map, Task.completed]])
    exact list_set_self _ _ _

/-- The hand-off never changes the `timeLeft` or `completed`
projections of the decremented array. -/
theorem applyHandOff_map_fields (prev upd : List Task) :
    ((applyHandOff prev upd).map Task.timeLeft = upd.map Task.timeLeft) ∧
    ((applyHandOff prev upd).map Task.completed = upd.map Task.completed) := by
  unfold applyHandOff
  dsimp only
  split
  next hfound =>
    split
    next hnext =>
      split
      · constructor
        · rw [(map_set_running _ _ hnext _).1, (map_set_running _ _ hfound _).1]
        · rw [(map_set_running _ _ hnext _).2, (map_set_running _ _ hfound _).2]
      · exact ⟨(map_set_running _ _ hfound _).1, (map_set_running _ _ hfound _).2⟩
    next => exact ⟨(map_set_running _ _ hfound _).1, (map_set_running _ _ hfound _).2⟩
  next => exact ⟨rfl, rfl⟩

theorem tickTasks_length (ap : Bool) (ts : List Task) :
    (tickTasks ap ts).length = ts.length := by
  unfold tickTasks
  dsimp only
  split
  · rfl
  · split
    · have := congrArg List.length (applyHandOff_map_fields ts (ts.map decTask)).1
      simpa using this
    · rw [List.length_map]

/-- `decTask` never changes `running`. -/
theorem decTask_running (t : Task) : (decTask t).running = t.running := by
  unfold decTask; split <;> rfl

/-- The `timeLeft` and `completed` projections of a tick's result are
those of the pointwise `decTask` map: the hand-off only touches
`running`, and an early-returned tick leaves every task unchanged. -/
theorem tickTasks_map_fields (ap : Bool) (ts : List Task) :
    ((tickTasks ap ts).map Task.timeLeft = (ts.map decTask).map Task.timeLeft) ∧
    ((tickTasks ap ts).map Task.completed = (ts.map decTask).map Task.completed) := by
  unfold tickTasks
  dsimp only
  split
  next hguard =>
    -- no task is running with time left, so decTask is the identity here
    have hall : ∀ t ∈ ts, t.running = true → t.timeLeft ≤ 0 := by
      simpa using hguard
    have hmap : ts.map decTask = ts := by
      have h2 : ts.map decTask = ts.map id := by
        apply List.map_congr_left
        intro t ht
        unfold decTask
        split
        next hc =>
          simp only [Bool.and_eq_true, decide_eq_true_eq] at hc
          exact absurd hc.2 (not_lt.mpr (hall t ht hc.1))
        next => rfl
      simpa using h2
    rw [hmap]
    exact ⟨rfl, rfl⟩
  next =>
    split
    · exact applyHandOff_map_fields ts (ts.map decTask)
    · exact ⟨rfl, rfl⟩

/-- Pointwise form: position `i` of a tick's result has the `timeLeft`
and `completed` of `decTask` applied to position `i` of the input. -/
theorem tick_getElem_fields (ap : Bool) (ts : List Task) (i : Nat) :
    ((tickTasks ap ts)[i]?.map Task.timeLeft
      = ts[i]?.map fun t => (decTask t).timeLeft) ∧
    ((tickTasks ap ts)[i]?.map Task.completed
      = ts[i]?.map fun t => (decTask t).completed) := by
  have hm := tickTasks_map_fields ap ts
  constructor
  · have h1 := congrArg (fun l => l[i]?) hm.1
    simp only [List.getElem?_map] at h1
    rw [h1]
    rw [Option.map_map]
    rfl
  · have h1 := congrArg (fun l => l[i]?) hm.2
    simp only [List.getElem?_map] at h1
    rw [h1]
    rw [Option.map_map]
    rfl

/-- The first task of the §8 scenario: 1-minute task, 1 second left,
running. -/
def scTask1 : Task :=
  { baseTask with
    id := 1, name := "Task 1", minutes := 1, timeLeft := 1,
    running := true, mode := some "countdown" }

/-- The second task of the §8 scenario: 5-minute task, 300 seconds
left, not running. -/
def scTask2 : Task :=
  { baseTask with
    id := 2, name := "Task 2", minutes := 5, timeLeft := 300,
    running := false, mode := some "countdown" }

/-- C1: a single tick decrements `timeLeft` by exactly 1 for every task
with `running=true` and `timeLeft>0`, sets `completed=true` exactly on
the tasks whose `timeLeft` reaches 0, and leaves `timeLeft`/`completed`
of every other task unchanged; in particular, on the scenario list
`[{id:1,minutes:1,timeLeft:1,running:true},
{id:2,minutes:5,timeLeft:300,running:false}]` with autoplay enabled one
tick yields task 1 with `timeLeft=0, completed=true, running=false` and
task 2 with `running=true`. -/
theorem claim_C1_tick_decrement :
    (∀ (ap : Bool) (ts : List Task) (i : Nat) (t : Task), ts[i]? = some t →
      (t.running = true → 0 < t.timeLeft →
        (tickTasks ap ts)[i]?.map Task.timeLeft = some (t.timeLeft - 1) ∧
        ((tickTasks ap ts)[i]?.map Task.completed = some true ↔
          t.timeLeft = 1)) ∧
      (¬(t.running = true ∧ 0 < t.timeLeft) →
        (tickTasks ap ts)[i]?.map Task.timeLeft = some t.timeLeft ∧
        (tickTasks ap ts)[i]?.map Task.completed = some t.completed)) ∧
    tickTasks true [scTask1, scTask2] =
      [{ scTask1 with
         timeLeft := 0, completed := true, running := false },
       { scTask2 with
         running := true }] := by
  constructor
  · intro ap ts i t hts
    have hf := tick_getElem_fields ap ts i
    constructor
    · intro hr hlt
      have h1 : (decTask t).timeLeft = t.timeLeft - 1 := by
        unfold decTask
        rw [if_pos (by simp [hr, hlt])]
      have h2 : (decTask t).completed = decide (t.timeLeft - 1 = 0) := by
        unfold decTask
        rw [if_pos (by simp [hr, hlt])]
      constructor
      · rw [hf.1, hts]
        simp only [Option.map_some']
        rw [h1]
      · rw [hf.2, hts]
        simp only [Option.map_some']
        rw [h2]
        simp only [Option.some_inj]
        constructor
        · intro hc
          have := of_decide_eq_true hc
          omega
        · intro hc
          rw [hc]
          decide
    · intro hnot
      have hdec : decTask t = t := by
        unfold decTask
        rw [if_neg]
        simp only [Bool.and_eq_true, decide_eq_true_eq]
        exact hnot
      constructor
      · rw [hf.1, hts]
        simp only [Option.map_some']
        rw [hdec]
      · rw [hf.2, hts]
        simp only [Option.map_some']
        rw [hdec]
  · decide

/-- Witness for C1 at the scenario list: task 1 (running, one second
left) ends the tick with `timeLeft = 0` and `completed = true`. -/
theorem claim_C1_tick_decrement_witness :
    (tickTasks true [scTask1, scTask2])[0]?.map Task.timeLeft = some 0 ∧
    (tickTasks true [scTask1, scTask2])[0]?.map Task.completed = some true :=
  ⟨((claim_C1_tick_decrement.1 true [scTask1, scTask2] 0 scTask1
      (by decide)).1 (by decide) (by decide)).1,
   ((claim_C1_tick_decrement.1 true [scTask1, scTask2] 0 scTask1
      (by decide)).1 (by decide) (by decide)).2.mpr (by decide)⟩

/-- C3 counterexample: a task that is `completed=true` while running
with `timeLeft=300` (the reset-then-restart situation named by the
claim) has `completed` overwritten to `false` by the next tick, because
the tick's map sets `completed := (newTimeLeft === 0)` unconditionally
on every decremented task. -/
theorem claim_C3_counterexample :
    ({ baseTask with
       id := 1, name := "A", minutes := 5, timeLeft := 300,
       running := true, completed := true } : Task).completed = true ∧
    tickTasks false
      [{ baseTask with
         id := 1, name := "A", minutes := 5, timeLeft := 300,
         running := true, completed := true }] =
      [{ baseTask with
         id := 1, name := "A", minutes := 5, timeLeft := 299,
         running := true, completed := false }] := by
  decide

/-- C3 (amended): a tick preserves `completed=true` for every task that
is not decremented (not running, or no time left); but a decremented
task has `completed` overwritten with `timeLeft - 1 = 0`, so a running
task with `completed=true` and `timeLeft > 1` — e.g. one whose
`timeLeft` was restored by reset while `completed` stayed true — has
`completed` cleared back to `false` by the tick. -/
theorem claim_C3_completed_amended (ap : Bool) (ts : List Task) (i : Nat)
    (t : Task) (hts : ts[i]? = some t) (hcomp : t.completed = true) :
    (¬(t.running = true ∧ 0 < t.timeLeft) →
      (tickTasks ap ts)[i]?.map Task.completed = some true) ∧
    (t.running = true → 1 < t.timeLeft →
      (tickTasks ap ts)[i]?.map Task.completed = some false) := by
  have hf := (tick_getElem_fields ap ts i).2
  constructor
  · intro hnot
    have hdec : decTask t = t := by
      unfold decTask
      rw [if_neg]
      simp only [Bool.and_eq_true, decide_eq_true_eq]
      exact hnot
    rw [hf, hts]
    simp only [Option.map_some']
    rw [hdec, hcomp]
  · intro hr hlt
    have h2 : (decTask t).completed = decide (t.timeLeft - 1 = 0) := by
      unfold decTask
      rw [if_pos]
      simp only [hr, Bool.true_and, decide_eq_true_eq]
      omega
    rw [hf, hts]
    simp only [Option.map_some']
    rw [h2]
    simp only [Option.some_inj]
    exact decide_eq_false (by omega)

/-- Witness for the amended C3: a completed, paused task keeps
`completed=true` through a tick, while a completed task running with
300 seconds left has it cleared. -/
theorem claim_C3_completed_amended_witness :
    ((tickTasks false
        [{ baseTask with id := 3, completed := true }])[0]?.map
      Task.completed = some true) ∧
    ((tickTasks false
        [{ baseTask with
           id := 1, name := "A", minutes := 5, timeLeft := 300,
           running := true, completed := true }])[0]?.map
      Task.completed = some false) :=
  ⟨(claim_C3_completed_amended false
      [{ baseTask with id := 3, completed := true }] 0
      { baseTask with id := 3, completed := true }
      (by decide) (by decide)).1 (by decide),
   (claim_C3_completed_amended false
      [{ baseTask with
         id := 1, name := "A", minutes := 5, timeLeft := 300,
         running := true, completed := true }] 0
      { baseTask with
        id := 1, name := "A", minutes := 5, timeLeft := 300,
        running := true, completed := true }
      (by decide) (by decide)).2 (by decide) (by decide)⟩

/-- C4: evaluation of the load effect.  A parse throw removes the
stored entry and leaves the empty list; but a record with `timeLeft`
missing and `minutes = 5` is repaired to `timeLeft = 5` — the raw
`minutes` value — where the claim (and §4.2's normative choice) expects
`minutes*60 = 300`. -/
theorem claim_C4_load_eval :
    load Stored.corrupt = { tasks := [], storageRemoved := true } ∧
    (load (Stored.arr
        [{ id := 7, name := some "A", minutes := RawNum.num 5,
           timeLeft := none, completed := none, mode := none }])).tasks =
      [{ baseTask with
         id := 7, name := "A", minutes := 5, timeLeft := 5,
         mode := some "countdown" }] ∧
    (5 : Int) ≠ 5 * 60 := by
  decide

/-- C7: `addTask` with a name whose trimmed form is empty leaves the
list unchanged for any minutes input; with a non-empty trimmed name and
absent/non-positive/non-numeric minutes it appends exactly one task
with `minutes = 60`, `timeLeft = 3600`, `running=false`,
`completed=false`, `mode="countdown"`. -/
theorem claim_C7_addTask_validation (tasks : List Task) (name : String)
    (mi : JsNum) (now : Int) :
    (jsTrim name = "" → addTask tasks name mi now = tasks) ∧
    (jsTrim name ≠ "" → (mi = JsNum.nan ∨ ∃ v, mi = JsNum.num v ∧ v ≤ 0) →
      addTask tasks name mi now = tasks ++
        [{ id := now, name := jsTrim name, minutes := 60,
           timeLeft := 60 * 60, running := false, completed := false,
           mode := some "countdown", originalName := none,
           isPomodoroWork := false, partNumber := none, totalParts := none,
           isPomodoroBreak := false, breakNumber := none,
           isPomodoroTaskBreak := false }]) := by
  constructor
  · intro h
    unfold addTask
    dsimp only
    rw [if_pos h]
  · intro h hm
    unfold addTask
    dsimp only
    rw [if_neg h]
    rcases hm with rfl | ⟨v, rfl, hv⟩
    · rfl
    · have h60 : (if v ≤ 0 then (60 : Int) else v) = 60 := if_pos hv
      dsimp only
      rw [h60]

/-- Witness for C7: `addTask("Study", -5)` on the empty list appends
the default-60 task. -/
theorem claim_C7_addTask_validation_witness :
    addTask [] "Study" (JsNum.num (-5)) 0 =
      [] ++
        [{ id := 0, name := jsTrim "Study", minutes := 60,
           timeLeft := 60 * 60, running := false, completed := false,
           mode := some "countdown", originalName := none,
           isPomodoroWork := false, partNumber := none, totalParts := none,
           isPomodoroBreak := false, breakNumber := none,
           isPomodoroTaskBreak := false }] :=
  (claim_C7_addTask_validation [] "Study" (JsNum.num (-5)) 0).2
    (by decide) (Or.inr ⟨-5, rfl, by decide⟩)

/-- C8: a tick on a list with no task that is running with time left is
a complete no-op — the snapshot is returned unchanged and, since React
sees the same snapshot, the save effect does not fire. -/
theorem claim_C8_tick_noop (s : AppState) (ap : Bool)
    (h : ∀ t ∈ s.tasks, t.running = true → t.timeLeft ≤ 0) :
    appTick s = s ∧ tickTasks ap s.tasks = s.tasks := by
  have hany :
      (s.tasks.any fun t => t.running && decide (0 < t.timeLeft)) = false := by
    rw [List.any_eq_false]
    intro t ht
    simp only [Bool.and_eq_true, decide_eq_true_eq, not_and]
    intro hr
    exact not_lt.mpr (h t ht hr)
  constructor
  · unfold appTick
    rw [hany]
    simp
  · unfold tickTasks
    rw [hany]
    simp

/-- Witness for C8: a single paused task is untouched and nothing is
persisted. -/
theorem claim_C8_tick_noop_witness :
    appTick { tasks := [scTask2], autoPlay := true, saveCount := 0 } =
      { tasks := [scTask2], autoPlay := true, saveCount := 0 } :=
  (claim_C8_tick_noop
    { tasks := [scTask2], autoPlay := true, saveCount := 0 } true
    (by decide)).1

/-- C9: after `resetTask(id)`, every task whose id matches has
`timeLeft = minutes*60` and `running = false` with every other field
(including `completed`) unchanged, and every task with a non-matching
id is entirely unchanged. -/
theorem claim_C9_resetTask (tasks : List Task) (id : Int) :
    List.Forall₂ (fun t r =>
      (t.id = id →
        r = { t with timeLeft := t.minutes * 60, running := false }) ∧
      (t.id ≠ id → r = t)) tasks (resetTask tasks id) := by
  induction tasks with
  | nil => exact List.Forall₂.nil
  | cons a l ih =>
    refine List.Forall₂.cons ?_ ih
    constructor <;> intro h <;> simp [h]

/-- Witness for C9 on the scenario list, resetting id 1. -/
theorem claim_C9_resetTask_witness :
    List.Forall₂ (fun t r =>
      (t.id = 1 →
        r = { t with timeLeft := t.minutes * 60, running := false }) ∧
      (t.id ≠ 1 → r = t)) [scTask1, scTask2]
      (resetTask [scTask1, scTask2] 1) :=
  claim_C9_resetTask [scTask1, scTask2] 1

/-- C2: when at least one task completes during a tick with autoplay
enabled, the hand-off (a) acts at the first index (in list order) whose
task was running with `timeLeft` exactly 1 before the decrement, (b)
sets `running=false` there, (c) leaves the `running` flag of every task
other than that index and the immediately following one unchanged — in
particular no later task is started, even when the immediately
following task is already completed, and when several tasks complete in
one tick only the first one found is advanced — and (d) sets
`running=true` on the immediately following index exactly when it
exists and its post-decrement `timeLeft` is positive, leaving its flag
unchanged otherwise. -/
theorem claim_C2_handoff (ts : List Task) (i : Nat)
    (hex : ∃ t ∈ ts, justCompleted t = true)
    (hi : ts.findIdx justCompleted = i) :
    (ts[i]?.map justCompleted = some true ∧
     ∀ k, k < i → ts[k]?.map justCompleted = some false) ∧
    ((tickTasks true ts)[i]?.map Task.running = some false) ∧
    (∀ k, k ≠ i → k ≠ i + 1 →
      (tickTasks true ts)[k]?.map Task.running = ts[k]?.map Task.running) ∧
    (∀ u, ts[i + 1]? = some u →
      (0 < (decTask u).timeLeft →
        (tickTasks true ts)[i + 1]?.map Task.running = some true) ∧
      ((decTask u).timeLeft ≤ 0 →
        (tickTasks true ts)[i + 1]?.map Task.running = some u.running)) := by
  subst hi
  obtain ⟨t0, ht0, hjc0⟩ := hex
  have hfid : ts.findIdx justCompleted < ts.length :=
    List.findIdx_lt_length_of_exists ⟨t0, ht0, hjc0⟩
  have hp0 : t0.running = true ∧ t0.timeLeft = 1 := by
    simpa [justCompleted] using hjc0
  have hany1 : (ts.any fun t => t.running && decide (0 < t.timeLeft)) = true :=
    List.any_eq_true.mpr ⟨t0, ht0, by simp [hp0.1, hp0.2]⟩
  have hany2 : (ts.any fun t =>
      t.running && decide (0 < t.timeLeft) && decide (t.timeLeft - 1 = 0)
        && true) = true :=
    List.any_eq_true.mpr ⟨t0, ht0, by simp [hp0.1, hp0.2]⟩
  have htick : tickTasks true ts = applyHandOff ts (ts.map decTask) := by
    unfold tickTasks
    dsimp only
    rw [hany1, hany2]
    simp
  have hfound : ts.findIdx justCompleted < (ts.map decTask).length := by
    rw [List.length_map]; exact hfid
  refine ⟨⟨?_, ?_⟩, ?_⟩
  · rw [List.getElem?_eq_getElem hfid]
    simp only [Option.map_some']
    exact congrArg some List.findIdx_getElem
  · intro k hk
    have hklen : k < ts.length := lt_trans hk hfid
    rw [List.getElem?_eq_getElem hklen]
    simp only [Option.map_some']
    rw [List.not_of_lt_findIdx hk]
  have hmain :
      ((applyHandOff ts (ts.map decTask))[ts.findIdx justCompleted]?.map
        Task.running = some false) ∧
      (∀ k, k ≠ ts.findIdx justCompleted →
        k ≠ ts.findIdx justCompleted + 1 →
        (applyHandOff ts (ts.map decTask))[k]?.map Task.running =
          ts[k]?.map Task.running) ∧
      (∀ u, ts[ts.findIdx justCompleted + 1]? = some u →
        (0 < (decTask u).timeLeft →
          (applyHandOff ts (ts.map decTask))[ts.findIdx justCompleted + 1]?.map
            Task.running = some true) ∧
        ((decTask u).timeLeft ≤ 0 →
          (applyHandOff ts (ts.map decTask))[ts.findIdx justCompleted + 1]?.map
            Task.running = some u.running)) := by
    unfold applyHandOff
    dsimp only
    rw [dif_pos hfound]
    split
    next h2 =>
      rw [List.length_set, List.length_map] at h2
      split
      next htl =>
        -- next task exists and has positive post-decrement time: started
        refine ⟨?_, ?_, ?_⟩
        · rw [List.getElem?_set_ne (by omega)]
          rw [List.getElem?_set_self (by rwa [List.length_map])]
          rfl
        · intro k hk1 hk2
          rw [List.getElem?_set_ne (Ne.symm hk2), List.getElem?_set_ne
            (Ne.symm hk1), List.getElem?_map]
          by_cases hk : k < ts.length
          · rw [List.getElem?_eq_getElem hk]
            simp only [Option.map_some']
            rw [decTask_running]
          · rw [List.getElem?_eq_none (le_of_not_lt hk)]
            rfl
        · intro u hu
          have hu' : ts[ts.findIdx justCompleted + 1] = u := by
            rw [List.getElem?_eq_getElem h2] at hu
            exact Option.some_inj.mp hu
          constructor
          · intro _
            rw [List.getElem?_set_self
              (by rw [List.length_set, List.length_map]; exact h2)]
            rfl
          · intro hneg
            exfalso
            have heq : ((( ts.map decTask).set (ts.findIdx justCompleted)
                { (ts.map decTask).get ⟨ts.findIdx justCompleted, hfound⟩ with
                  running := false }).get
                ⟨ts.findIdx justCompleted + 1, by
                  rw [List.length_set, List.length_map]; exact h2⟩).timeLeft
                = (decTask u).timeLeft := by
              simp only [List.get_eq_getElem]
              rw [List.getElem_set_ne (by omega), List.getElem_map, hu']
            rw [heq] at htl
            omega
      next htl =>
        -- next task exists but its post-decrement time is not positive
        refine ⟨?_, ?_, ?_⟩
        · rw [List.getElem?_set_self (by rwa [List.length_map])]
          rfl
        · intro k hk1 hk2
          rw [List.getElem?_set_ne (Ne.symm hk1), List.getElem?_map]
          by_cases hk : k < ts.length
          · rw [List.getElem?_eq_getElem hk]
            simp only [Option.map_some']
            rw [decTask_running]
          · rw [List.getElem?_eq_none (le_of_not_lt hk)]
            rfl
        · intro u hu
          have hu' : ts[ts.findIdx justCompleted + 1] = u := by
            rw [List.getElem?_eq_getElem h2] at hu
            exact Option.some_inj.mp hu
          have heq : ((( ts.map decTask).set (ts.findIdx justCompleted)
              { (ts.map decTask).get ⟨ts.findIdx justCompleted, hfound⟩ with
                running := false }).get
              ⟨ts.findIdx justCompleted + 1, by
                rw [List.length_set, List.length_map]; exact h2⟩).timeLeft
              = (decTask u).timeLeft := by
            simp only [List.get_eq_getElem]
            rw [List.getElem_set_ne (by omega), List.getElem_map, hu']
          constructor
          · intro hpos
            exfalso
            rw [heq] at htl
            omega
          · intro _
            rw [List.getElem?_set_ne (by omega : ts.findIdx justCompleted ≠
              ts.findIdx justCompleted + 1), List.getElem?_map,
              List.getElem?_eq_getElem h2]
            simp only [Option.map_some']
            rw [hu', decTask_running]
    next h2 =>
      -- no next task: only the completing task is stopped
      rw [List.length_set, List.length_map] at h2
      refine ⟨?_, ?_, ?_⟩
      · rw [List.getElem?_set_self (by rwa [List.length_map])]
        rfl
      · intro k hk1 hk2
        rw [List.getElem?_set_ne (Ne.symm hk1), List.getElem?_map]
        by_cases hk : k < ts.length
        · rw [List.getElem?_eq_getElem hk]
          simp only [Option.map_some']
          rw [decTask_running]
        · rw [List.getElem?_eq_none (le_of_not_lt hk)]
          rfl
      · intro u hu
        exfalso
        rw [List.getElem?_eq_none (by omega)] at hu
        exact Option.noConfusion hu
  rw [htick]
  exact hmain

/-- Witness for C2 on the §8 scenario list: the completing first task
is stopped and the second task is started. -/
theorem claim_C2_handoff_witness :
    (tickTasks true [scTask1, scTask2])[0]?.map Task.running = some false ∧
    (tickTasks true [scTask1, scTask2])[1]?.map Task.running = some true :=
  ⟨(claim_C2_handoff [scTask1, scTask2] 0
      ⟨scTask1, by decide, by decide⟩ (by decide)).2.1,
   ((claim_C2_handoff [scTask1, scTask2] 0
      ⟨scTask1, by decide, by decide⟩ (by decide)).2.2.2 scTask2
      (by decide)).1 (by decide)⟩

/-! ### Pomodoro expansion -/

/-- The sessions loop never produces anything once the remaining
minutes are exhausted. -/
theorem pomSessions_nonpos (base : Int) (index : Nat) (t : Task)
    (wm bm : Int) (fuel : Nat) (m : Int) (n : Nat) (hm : m ≤ 0) :
    pomSessions base index t wm bm fuel m n = [] := by
  cases fuel with
  | zero => rfl
  | succ fuel => simp [pomSessions, show ¬0 < m by omega]

/-- Spec-side rendering of §4.5's session rule, stated the way the
spec words it: while minutes remain, the next work session is the
whole remainder when it fits in `workMinutes` (and then no break
follows), else a full `workMinutes` session followed by a break. -/
def specPomSessions (base : Int) (index : Nat) (t : Task)
    (workMinutes breakMinutes : Int) : Nat → Int → Nat → List Task
  | 0, _, _ => []
  | fuel + 1, m, n =>
    if 0 < m then
      if m ≤ workMinutes then
        [pomWorkTask base index t workMinutes m (n + 1)]
      else
        pomWorkTask base index t workMinutes workMinutes (n + 1) ::
          pomBreakTask base index breakMinutes (n + 1) ::
          specPomSessions base index t workMinutes breakMinutes fuel
            (m - workMinutes) (n + 1)
    else []

/-- Spec-side rendering of the per-task walk: each task's sessions,
one task break when the task is not the last. -/
def specPomGo (workMinutes breakMinutes base : Int) (len : Nat) :
    Nat → List Task → List Task
  | _, [] => []
  | index, t :: rest =>
    (specPomSessions base index t workMinutes breakMinutes
       t.minutes.toNat t.minutes 0 ++
     (if index < len - 1 then [pomTaskBreak base index breakMinutes]
      else [])) ++
    specPomGo workMinutes breakMinutes base len (index + 1) rest

/-- Spec-side rendering of the whole Pomodoro expansion (§4.5). -/
def specHandleAddPomodoro (prev : List Task)
    (workMinutes breakMinutes base : Int) : List Task :=
  specPomGo workMinutes breakMinutes base prev.length 0 prev

/-- The source's `while` loop (session of `min(work, remaining)`, break
whenever minutes remain afterwards) coincides with the spec's phrasing
for any positive `workMinutes`. -/
theorem pomSessions_eq_spec (base : Int) (index : Nat) (t : Task)
    (wm bm : Int) (_hw : 0 < wm) :
    ∀ (fuel : Nat) (m : Int) (n : Nat),
      pomSessions base index t wm bm fuel m n =
        specPomSessions base index t wm bm fuel m n := by
  intro fuel
  induction fuel with
  | zero => intro m n; rfl
  | succ fuel ih =>
    intro m n
    by_cases hm : 0 < m
    · by_cases hmw : m ≤ wm
      · have hmin : min wm m = m := min_eq_right hmw
        simp only [pomSessions, specPomSessions, if_pos hm, if_pos hmw, hmin]
        rw [if_neg (by omega : ¬0 < m - m),
          pomSessions_nonpos base index t wm bm fuel (m - m) (n + 1)
            (by omega)]
        simp
      · have hmin : min wm m = wm := min_eq_left (by omega)
        simp only [pomSessions, specPomSessions, if_pos hm, if_neg hmw, hmin]
        rw [if_pos (by omega : 0 < m - wm), ih (m - wm) (n + 1)]
        simp
    · simp only [pomSessions, specPomSessions, if_neg hm]

theorem pomGo_eq_spec (wm bm base : Int) (len : Nat) (hw : 0 < wm) :
    ∀ (rest : List Task) (index : Nat),
      pomGo wm bm base len index rest = specPomGo wm bm base len index rest := by
  intro rest
  induction rest with
  | nil => intro index; rfl
  | cons t rest ih =>
    intro index
    simp only [pomGo, specPomGo]
    rw [pomSessions_eq_spec base index t wm bm hw, ih (index + 1)]

/-- A single 100-minute task used by the Pomodoro scenario (§8). -/
def demoTask : Task :=
  { baseTask with
    id := 9, name := "T", minutes := 100, mode := some "countdown" }

/-- C5: the Pomodoro expansion equals the spec's description — work
sessions of `min(workMinutes, remaining)` until the task's minutes are
exhausted, a break after every session except the final one of the
task, a task break after every original task except the last — and a
single 100-minute task at `workMinutes=45, breakMinutes=15` yields
exactly 5 tasks: work sessions of 45, 45, 10 minutes interleaved with
two 15-minute breaks and no trailing task break. -/
theorem claim_C5_pomodoro :
    (∀ (prev : List Task) (wm bm base : Int), 0 < wm →
      handleAddPomodoro prev wm bm base =
        specHandleAddPomodoro prev wm bm base) ∧
    (handleAddPomodoro [demoTask] 45 15 0).length = 5 ∧
    (handleAddPomodoro [demoTask] 45 15 0).map Task.minutes =
      [45, 15, 45, 15, 10] ∧
    (handleAddPomodoro [demoTask] 45 15 0).map Task.isPomodoroWork =
      [true, false, true, false, true] ∧
    (handleAddPomodoro [demoTask] 45 15 0).map Task.isPomodoroBreak =
      [false, true, false, true, false] ∧
    (∀ u ∈ handleAddPomodoro [demoTask] 45 15 0,
      u.isPomodoroTaskBreak = false) := by
  refine ⟨?_, by decide, by decide, by decide, by decide, by decide⟩
  intro prev wm bm base hw
  unfold handleAddPomodoro specHandleAddPomodoro
  exact pomGo_eq_spec wm bm base prev.length hw prev 0

/-- Witness for C5: the refinement instantiated on the §8 scenario. -/
theorem claim_C5_pomodoro_witness :
    handleAddPomodoro [demoTask] 45 15 0 =
      specHandleAddPomodoro [demoTask] 45 15 0 :=
  claim_C5_pomodoro.1 [demoTask] 45 15 0 (by decide)

/-- Every element of the sessions loop is either a work task carrying
the original task's `mode` (the spread copies it) or a fresh break
record with no `mode` field. -/
theorem pomSessions_mode (base : Int) (index : Nat) (t : Task)
    (wm bm : Int) :
    ∀ (fuel : Nat) (m : Int) (n : Nat),
      ∀ u ∈ pomSessions base index t wm bm fuel m n,
        (u.isPomodoroWork = true ∧ u.mode = t.mode) ∨
        (u.mode = none ∧ u.isPomodoroWork = false ∧
          u.isPomodoroBreak = true) := by
  intro fuel
  induction fuel with
  | zero =>
    intro m n u hu
    simp [pomSessions] at hu
  | succ fuel ih =>
    intro m n u hu
    by_cases hm : 0 < m
    · simp only [pomSessions, if_pos hm] at hu
      rcases List.mem_cons.mp hu with rfl | hu2
      · exact Or.inl ⟨rfl, rfl⟩
      · rcases List.mem_append.mp hu2 with hbrk | hrec
        · split at hbrk
          · rcases List.mem_singleton.mp hbrk with rfl
            exact Or.inr ⟨rfl, rfl, rfl⟩
          · simp at hbrk
        · exact ih _ _ u hrec
    · rw [pomSessions_nonpos base index t wm bm _ m n (by omega)] at hu
      simp at hu

/-- Every element of the per-task walk is either a work task carrying
the mode of some input task or a fresh record with no `mode` field. -/
theorem pomGo_mode (wm bm base : Int) (len : Nat) :
    ∀ (rest : List Task) (index : Nat),
      ∀ u ∈ pomGo wm bm base len index rest,
        (u.isPomodoroWork = true ∧ ∃ s ∈ rest, u.mode = s.mode) ∨
        (u.mode = none ∧ u.isPomodoroWork = false) := by
  intro rest
  induction rest with
  | nil =>
    intro index u hu
    simp [pomGo] at hu
  | cons t rest ih =>
    intro index u hu
    simp only [pomGo] at hu
    rcases List.mem_append.mp hu with h1 | hrec
    · rcases List.mem_append.mp h1 with hs | htb
      · rcases pomSessions_mode base index t wm bm _ _ _ u hs with
          ⟨hw2, hm2⟩ | ⟨h1m, h2m, _⟩
        · exact Or.inl ⟨hw2, t, List.mem_cons_self t rest, hm2⟩
        · exact Or.inr ⟨h1m, h2m⟩
      · split at htb
        · rcases List.mem_singleton.mp htb with rfl
          exact Or.inr ⟨rfl, rfl⟩
        · simp at htb
    · rcases ih (index + 1) u hrec with ⟨hw2, s, hsm, hm2⟩ | hr
      · exact Or.inl ⟨hw2, s, List.mem_cons_of_mem t hsm, hm2⟩
      · exact Or.inr hr

/-- C10: in the output of a Pomodoro expansion every work sub-task
carries the `mode` of an originating task (the spread copies every
non-overridden field), while every break and task-break sub-task is a
fresh record with no `mode` field; hence after an expansion that
produces at least one break, not every task in the list carries a mode
tag. -/
theorem claim_C10_pomodoro_mode :
    (∀ (prev : List Task) (wm bm base : Int),
      ∀ u ∈ handleAddPomodoro prev wm bm base,
        (u.isPomodoroWork = true ∧ ∃ s ∈ prev, u.mode = s.mode) ∨
        (u.mode = none ∧ u.isPomodoroWork = false)) ∧
    (∀ s ∈ [demoTask], s.mode = some "countdown") ∧
    (∃ u ∈ handleAddPomodoro [demoTask] 45 15 0, u.mode = none) ∧
    (∀ u ∈ handleAddPomodoro [demoTask] 45 15 0,
      u.isPomodoroWork = true → u.mode = some "countdown") := by
  refine ⟨?_, by decide, by decide, by decide⟩
  intro prev wm bm base u hu
  exact pomGo_mode wm bm base prev.length prev 0 u hu

/-- Witness for C10: the first break produced from the 100-minute task
is a fresh record without a `mode` field. -/
theorem claim_C10_pomodoro_mode_witness :
    ((pomBreakTask 0 0 15 1).isPomodoroWork = true ∧
      ∃ s ∈ [demoTask], (pomBreakTask 0 0 15 1).mode = s.mode) ∨
    ((pomBreakTask 0 0 15 1).mode = none ∧
      (pomBreakTask 0 0 15 1).isPomodoroWork = false) :=
  claim_C10_pomodoro_mode.1 [demoTask] 45 15 0 (pomBreakTask 0 0 15 1)
    (by decide)

/-! ### Pomodoro id uniqueness -/

/-- Every id produced by the sessions loop for task `index`, started at
session counter `n` with `m` minutes remaining, is
`base + index*1000 + o` with `2n+2 ≤ o ≤ 2(n + m.toNat)` (work session
`k` contributes offset `2k`; break `k`, offset `2k+1`, only exists when
at least one more minute remains after session `k`, so its offset also
stays below `2(n + m.toNat)`). -/
theorem pomSessions_id_bounds (base : Int) (index : Nat) (t : Task)
    (wm bm : Int) (hw : 0 < wm) :
    ∀ (fuel : Nat) (m : Int) (n : Nat),
      ∀ u ∈ pomSessions base index t wm bm fuel m n,
        ∃ o : Int, u.id = base + (index : Int) * 1000 + o ∧
          2 * (n : Int) + 2 ≤ o ∧ o ≤ 2 * ((n : Int) + m.toNat) := by
  intro fuel
  induction fuel with
  | zero =>
    intro m n u hu
    simp [pomSessions] at hu
  | succ fuel ih =>
    intro m n u hu
    by_cases hm : 0 < m
    · simp only [pomSessions, if_pos hm] at hu
      rcases List.mem_cons.mp hu with rfl | hu2
      · exact ⟨((n + 1 : Nat) : Int) * 2, rfl,
          by push_cast; omega, by push_cast; omega⟩
      · rcases List.mem_append.mp hu2 with hbrk | hrec
        · split at hbrk
          next hrem =>
            rcases List.mem_singleton.mp hbrk with rfl
            exact ⟨((n + 1 : Nat) : Int) * 2 + 1, by simp [pomBreakTask]; ring,
              by push_cast; omega, by push_cast; omega⟩
          next => simp at hbrk
        · obtain ⟨o, ho, h1, h2⟩ := ih (m - min wm m) (n + 1) u hrec
          push_cast at h1 h2
          exact ⟨o, ho, by omega, by omega⟩
    · rw [pomSessions_nonpos base index t wm bm (fuel + 1) m n (by omega)] at hu
      simp at hu

/-- The ids produced by the sessions loop are pairwise distinct: the
offsets `2(n+1), 2(n+1)+1, 2(n+2), …` strictly increase. -/
theorem pomSessions_id_nodup (base : Int) (index : Nat) (t : Task)
    (wm bm : Int) (hw : 0 < wm) :
    ∀ (fuel : Nat) (m : Int) (n : Nat),
      ((pomSessions base index t wm bm fuel m n).map Task.id).Nodup := by
  intro fuel
  induction fuel with
  | zero =>
    intro m n
    simp [pomSessions]
  | succ fuel ih =>
    intro m n
    by_cases hm : 0 < m
    · simp only [pomSessions, if_pos hm]
      rw [List.map_cons, List.map_append, List.nodup_cons]
      constructor
      · intro hmem
        rcases List.mem_append.mp hmem with hb | hr
        · split at hb
          · rcases List.mem_map.mp hb with ⟨u, hu, hid⟩
            rcases List.mem_singleton.mp hu with rfl
            have : base + (index : Int) * 1000 + ((n + 1 : Nat) : Int) * 2 + 1
                = base + (index : Int) * 1000 + ((n + 1 : Nat) : Int) * 2 := hid
            omega
          · simp at hb
        · rcases List.mem_map.mp hr with ⟨u, hu, hid⟩
          obtain ⟨o, ho, h1, h2⟩ :=
            pomSessions_id_bounds base index t wm bm hw fuel
              (m - min wm m) (n + 1) u hu
          rw [ho] at hid
          simp only [pomWorkTask] at hid
          push_cast at h1 hid
          omega
      · split
        next hrem =>
          simp only [List.map_cons, List.map_nil, List.cons_append,
            List.nil_append]
          rw [List.nodup_cons]
          constructor
          · intro hmem
            rcases List.mem_map.mp hmem with ⟨u, hu, hid⟩
            obtain ⟨o, ho, h1, h2⟩ :=
              pomSessions_id_bounds base index t wm bm hw fuel
                (m - min wm m) (n + 1) u hu
            rw [ho] at hid
            simp only [pomBreakTask] at hid
            push_cast at h1 hid
            omega
          · exact ih (m - min wm m) (n + 1)
        next hrem =>
          simp only [List.map_nil, List.nil_append]
          exact ih (m - min wm m) (n + 1)
    · rw [pomSessions_nonpos base index t wm bm (fuel + 1) m n (by omega)]
      simp

/-- Every id produced by the per-task walk from index `index` lies in
band `j` (its task's index): either `base + j*1000 + o` with
`2 ≤ o ≤ 998` (sessions and breaks, given each task's minutes is at
most 499) or `base + j*1000 + 9999` (the task break).  `9999 - 998 >
9*1000` is impossible to bridge, so the two shapes never meet across
distinct bands whatever the list length. -/
theorem pomGo_id_bounds (wm bm base : Int) (len : Nat) (hw : 0 < wm) :
    ∀ (rest : List Task) (index : Nat),
      (∀ t ∈ rest, t.minutes ≤ 499) →
      ∀ u ∈ pomGo wm bm base len index rest,
        ∃ j : Nat, index ≤ j ∧ j < index + rest.length ∧
          ((∃ o : Int, u.id = base + (j : Int) * 1000 + o ∧
              2 ≤ o ∧ o ≤ 998) ∨
           u.id = base + (j : Int) * 1000 + 9999) := by
  intro rest
  induction rest with
  | nil =>
    intro index hm u hu
    simp [pomGo] at hu
  | cons t rest ih =>
    intro index hm u hu
    simp only [pomGo] at hu
    rcases List.mem_append.mp hu with h1 | hrec
    · refine ⟨index, le_refl index, by simp only [List.length_cons]; omega, ?_⟩
      rcases List.mem_append.mp h1 with hs | htb
      · obtain ⟨o, ho, h1o, h2o⟩ :=
          pomSessions_id_bounds base index t wm bm hw _ t.minutes 0 u hs
        have hm1 : t.minutes ≤ 499 := hm t (List.mem_cons_self t rest)
        push_cast at h1o h2o
        exact Or.inl ⟨o, ho, by omega, by omega⟩
      · split at htb
        · rcases List.mem_singleton.mp htb with rfl
          exact Or.inr rfl
        · simp at htb
    · obtain ⟨j, hj1, hj2, hj3⟩ :=
        ih (index + 1) (fun s hs => hm s (List.mem_cons_of_mem t hs)) u hrec
      exact ⟨j, by omega, by simp only [List.length_cons]; omega, hj3⟩

/-- Pairwise distinctness of the ids of a whole expansion, provided
every task needs at most 499 minutes: session and break offsets then
stay at or below 998, so each task's ids live in its own 1000-wide
band, and the task-break offset 9999 misses every band (it would need
an in-band offset of exactly 999). -/
theorem pomGo_id_nodup (wm bm base : Int) (len : Nat) (hw : 0 < wm) :
    ∀ (rest : List Task) (index : Nat),
      (∀ t ∈ rest, t.minutes ≤ 499) →
      ((pomGo wm bm base len index rest).map Task.id).Nodup := by
  intro rest
  induction rest with
  | nil =>
    intro index hm
    simp [pomGo]
  | cons t rest ih =>
    intro index hm
    have hm1 : t.minutes ≤ 499 := hm t (List.mem_cons_self t rest)
    have hmrest : ∀ s ∈ rest, s.minutes ≤ 499 :=
      fun s hs => hm s (List.mem_cons_of_mem t hs)
    simp only [pomGo]
    rw [List.map_append]
    apply List.Nodup.append
    · rw [List.map_append]
      apply List.Nodup.append
      · exact pomSessions_id_nodup base index t wm bm hw _ t.minutes 0
      · split
        · simp
        · simp
      · rw [List.disjoint_left]
        intro a ha hb
        rcases List.mem_map.mp ha with ⟨u, hu, rfl⟩
        obtain ⟨o, ho, h1o, h2o⟩ :=
          pomSessions_id_bounds base index t wm bm hw _ t.minutes 0 u hu
        push_cast at h1o h2o
        split at hb
        · rcases List.mem_map.mp hb with ⟨v, hv, hid⟩
          rcases List.mem_singleton.mp hv with rfl
          simp only [pomTaskBreak] at hid
          rw [ho] at hid
          omega
        · simp at hb
    · exact ih (index + 1) hmrest
    · rw [List.disjoint_left]
      intro a ha hb
      rcases List.mem_map.mp ha with ⟨u, hu, rfl⟩
      rcases List.mem_map.mp hb with ⟨v, hv, hva⟩
      obtain ⟨j, hj1, hj2, hj3⟩ :=
        pomGo_id_bounds wm bm base len hw rest (index + 1) hmrest v hv
      rcases List.mem_append.mp hu with hs | htb
      · obtain ⟨o, ho, h1o, h2o⟩ :=
          pomSessions_id_bounds base index t wm bm hw _ t.minutes 0 u hs
        push_cast at h1o h2o
        rcases hj3 with ⟨o2, ho2, h1o2, h2o2⟩ | ho2
        · rw [ho, ho2] at hva
          omega
        · rw [ho, ho2] at hva
          omega
      · split at htb
        · rcases List.mem_singleton.mp htb with rfl
          simp only [pomTaskBreak] at hva
          rcases hj3 with ⟨o2, ho2, h1o2, h2o2⟩ | ho2
          · rw [ho2] at hva
            omega
          · rw [ho2] at hva
            omega
        · simp at htb

/-- The two-task list whose expansion at `workMinutes = 1` produces an
id collision: task A needs 501 one-minute sessions, so its 501st work
session has offset `501*2 = 1002`, which equals task B's first work
session id `1*1000 + 1*2`. -/
def cexTasks : List Task :=
  [{ baseTask with id := 1, name := "A", minutes := 501 },
   { baseTask with id := 2, name := "B", minutes := 1 }]

/-- The ids of the expansion of `cexTasks` at `workMinutes=1,
breakMinutes=1` with timestamp base 0. -/
def cexPomodoroIds : List Int :=
  (handleAddPomodoro cexTasks 1 1 0).map Task.id

set_option maxRecDepth 100000 in
/-- C6 counterexample: in the expansion of `cexTasks` the ids at
positions 1000 (last work session of the 501-minute task A) and 1002
(first work session of task B) are both 1002, so the produced ids are
not pairwise distinct. -/
theorem claim_C6_counterexample :
    cexPomodoroIds[1000]? = some 1002 ∧
    cexPomodoroIds[1002]? = some 1002 ∧
    ¬ cexPomodoroIds.Nodup := by
  have h1 : cexPomodoroIds[1000]? = some 1002 := by decide
  have h2 : cexPomodoroIds[1002]? = some 1002 := by decide
  refine ⟨h1, h2, fun hnd => ?_⟩
  have hlt : (1000 : Nat) < cexPomodoroIds.length := by decide
  have := List.getElem?_inj hlt hnd (h1.trans h2.symm)
  omega

/-- C6 (amended): all ids produced by a single Pomodoro expansion are
pairwise distinct provided the expansion's timestamp reads coincide
and every original task's minutes is at most 499 — the bound the
counterexample's 501-minute task violates; a task needing 500 or more
work sessions overflows its 1000-wide id band into the next task's. -/
theorem claim_C6_ids_amended (prev : List Task) (wm bm base : Int)
    (hw : 0 < wm) (hmin : ∀ t ∈ prev, t.minutes ≤ 499) :
    ((handleAddPomodoro prev wm bm base).map Task.id).Nodup := by
  unfold handleAddPomodoro
  exact pomGo_id_nodup wm bm base prev.length hw prev 0 hmin

/-- Witness for the amended C6 on the §8 Pomodoro scenario. -/
theorem claim_C6_ids_amended_witness :
    ((handleAddPomodoro [demoTask] 45 15 0).map Task.id).Nodup :=
  claim_C6_ids_amended [demoTask] 45 15 0 (by decide) (by decide)

end TimeManager
